import Mathlib

/-!
Verification of the paginated cache / i18n middleware design of the
Chariot landing page front-end.

The sidebar cache subsystem (Paginated Cache Store, Cache Controller,
Group Scoping, Persistence Adapter) is described by the design document
`docs/sidebar-architecture.md` and the accompanying specification; its
implementation lives outside this repository snapshot, so those
components are modelled from the specification text.  The locale
middleware, the i18n request configuration and the catch-all not-found
page are translated directly from the TypeScript sources.
-/

namespace Chariot

/-- A resource item: an opaque record identified by a unique string id;
the `payload` field stands for the resource-specific fields. -/
structure Item where
  id : String
  payload : Nat
deriving DecidableEq, Repr

/-- Modelled from the spec: the Cache Slice of the Paginated Cache Store
(one per resource kind), with items in insertion/page order, loading
flags, last error, page cursor, has-more flag and total count. -/
structure CacheSlice where
  items : List Item
  loading : Bool
  loadingMore : Bool
  error : Option String
  page : Nat
  hasMore : Bool
  total : Nat
deriving DecidableEq, Repr

/-- Modelled from the spec: a Cache Slice is created empty at store
initialization; `clearCache` resets it to this value. -/
def initialSlice : CacheSlice :=
  { items := [], loading := false, loadingMore := false, error := none
  , page := 1, hasMore := false, total := 0 }

/-- Modelled from the spec: `beginFetch` sets `loading := true` and
clears `error` for a first-page request, and sets `loadingMore := true`
for a page > 1 request. -/
def beginFetch (s : CacheSlice) (page : Nat) : CacheSlice :=
  if page = 1 then { s with loading := true, error := none }
  else { s with loadingMore := true }

/-- Modelled from the spec: appending a later page to the held items,
deduplicating by id with the policy that the new item wins on an id
collision. -/
def mergePage (old newItems : List Item) : List Item :=
  old.filter (fun x => newItems.all (fun y => y.id ≠ x.id)) ++ newItems

/-- Modelled from the spec: `fetchSucceeded(slice, items, page, total,
hasMore)` replaces `items` on page 1, appends deduplicating by id on
page > 1, always clears the loading flags and records `page`, `total`
and `hasMore` as returned by the Remote Resource Client. -/
def fetchSucceeded (s : CacheSlice) (newItems : List Item) (page total : Nat)
    (hasMore : Bool) : CacheSlice :=
  { s with
    items := if page = 1 then newItems else mergePage s.items newItems
  , loading := false, loadingMore := false
  , page := page, total := total, hasMore := hasMore }

/-- Modelled from the spec: `fetchFailed` records the error message and
clears the loading flags, leaving `items` unchanged
(stale-but-available). -/
def fetchFailed (s : CacheSlice) (msg : String) : CacheSlice :=
  { s with error := some msg, loading := false, loadingMore := false }

/-- Modelled from the spec: `invalidate` resets the slice to the empty
initial slice so the next read triggers a fresh fetch. -/
def invalidate (_s : CacheSlice) : CacheSlice := initialSlice

/-- Number of entries of a given id held in a list of items. -/
def countId (l : List Item) (i : String) : Nat :=
  (l.filter (fun x => x.id = i)).length

theorem mergePage_filter (old newItems : List Item) (i : String) :
    (mergePage old newItems).filter (fun x => x.id = i) =
      if (newItems.map Item.id).contains i
      then newItems.filter (fun x => x.id = i)
      else old.filter (fun x => x.id = i) := by
  unfold mergePage
  rw [List.filter_append]
  by_cases h : (newItems.map Item.id).contains i
  · have hold : old.filter
        (fun x => decide (x.id = i) && newItems.all (fun y => y.id ≠ x.id)) = [] := by
      rw [List.filter_eq_nil_iff]
      intro x _ hx
      simp only [Bool.and_eq_true, decide_eq_true_eq, List.all_eq_true,
        bne_iff_ne, ne_eq, decide_not, Bool.not_eq_true', decide_eq_false_iff_not] at hx
      rcases hx with ⟨hxi, hall⟩
      simp only [List.contains_eq_any_beq, List.any_eq_true, beq_iff_eq,
        List.mem_map] at h
      rcases h with ⟨_, ⟨y, hy, rfl⟩, rfl⟩
      exact hall y hy (hxi ▸ rfl)
    rw [if_pos h, List.filter_filter, hold, List.nil_append]
  · have hold : ∀ x ∈ old, x.id = i →
        (newItems.all (fun y => y.id ≠ x.id)) = true := by
      intro x _ hx
      simp only [List.all_eq_true]
      intro y hy
      simp only [ne_eq, decide_not, Bool.not_eq_true', decide_eq_false_iff_not]
      intro hyx
      exact h (by
        simp only [List.contains_eq_any_beq, List.any_eq_true, beq_iff_eq, List.mem_map]
        exact ⟨y.id, ⟨y, hy, rfl⟩, by rw [hyx, hx]⟩)
    have hnew : newItems.filter (fun x => x.id = i) = [] := by
      rw [List.filter_eq_nil_iff]
      intro x hx hxi
      simp only [decide_eq_true_eq] at hxi
      exact h (by
        simp only [List.contains_eq_any_beq, List.any_eq_true, beq_iff_eq, List.mem_map]
        exact ⟨x.id, ⟨x, hx, rfl⟩, hxi ▸ rfl⟩)
    rw [if_neg h, hnew, List.append_nil, List.filter_filter]
    apply List.filter_congr
    intro x hx
    by_cases hxi : x.id = i
    · have hall := hold x hx hxi
      simp only [List.all_eq_true, ne_eq, decide_not, Bool.not_eq_true',
        decide_eq_false_iff_not] at hall
      simp only [hxi] at hall
      simp only [hxi, decide_True, Bool.true_and, List.all_eq_true, ne_eq,
        decide_not, Bool.not_eq_true', decide_eq_false_iff_not]
      exact hall
    · simp [hxi]

theorem mergePage_mem (old newItems : List Item) (x : Item) :
    x ∈ mergePage old newItems ↔
      x ∈ newItems ∨ (x ∈ old ∧ ¬ (newItems.map Item.id).contains x.id) := by
  unfold mergePage
  simp only [List.mem_append, List.mem_filter, List.all_eq_true, ne_eq,
    decide_not, Bool.not_eq_true', decide_eq_false_iff_not,
    List.contains_eq_any_beq, List.any_eq_true, beq_iff_eq, List.mem_map,
    not_exists, not_and]
  constructor
  · rintro (⟨hx, hall⟩ | hx)
    · exact Or.inr ⟨hx, by
        rintro i ⟨y, hy, rfl⟩ hxy
        exact hall y hy hxy.symm⟩
    · exact Or.inl hx
  · rintro (hx | ⟨hx, hids⟩)
    · exact Or.inr hx
    · exact Or.inl ⟨hx, fun y hy hyx => hids y.id ⟨y, hy, rfl⟩ hyx.symm⟩

/-- Claim C1: for every cache slice, `fetchSucceeded` with page 1 replaces
the items with the given page; with page > 1 the result is the previously
held items with the new page appended, deduplicated by id: an id occurring
in the new page keeps exactly the new page's entries for that id (the new
item replaces the old one, and an id held once in the new page yields
exactly one entry, so `items.length` counts it once), an id not in the new
page keeps the old entries, and membership is exactly the new items plus
the old items whose id is not in the new page. -/
theorem fetchSucceeded_page_semantics (s : CacheSlice) (newItems : List Item)
    (page total : Nat) (hasMore : Bool) :
    (page = 1 → (fetchSucceeded s newItems page total hasMore).items = newItems) ∧
    (1 < page →
      (∀ i : String, (newItems.map Item.id).contains i →
        (fetchSucceeded s newItems page total hasMore).items.filter
            (fun x => x.id = i) = newItems.filter (fun x => x.id = i)) ∧
      (∀ i : String, ¬ (newItems.map Item.id).contains i →
        (fetchSucceeded s newItems page total hasMore).items.filter
            (fun x => x.id = i) = s.items.filter (fun x => x.id = i)) ∧
      (∀ i : String, countId newItems i = 1 →
        countId (fetchSucceeded s newItems page total hasMore).items i = 1) ∧
      (∀ x : Item, x ∈ (fetchSucceeded s newItems page total hasMore).items ↔
        x ∈ newItems ∨ (x ∈ s.items ∧ ¬ (newItems.map Item.id).contains x.id))) := by
  constructor
  · intro h1
    simp [fetchSucceeded, h1]
  · intro hp
    have hne : page ≠ 1 := by omega
    have hitems : (fetchSucceeded s newItems page total hasMore).items
        = mergePage s.items newItems := by
      simp [fetchSucceeded, hne]
    refine ⟨?_, ?_, ?_, ?_⟩
    · intro i hi
      rw [hitems, mergePage_filter, if_pos hi]
    · intro i hi
      rw [hitems, mergePage_filter, if_neg hi]
    · intro i hcount
      have hi : (newItems.map Item.id).contains i := by
        by_contra hni
        have : newItems.filter (fun x => x.id = i) = [] := by
          rw [List.filter_eq_nil_iff]
          intro x hx hxi
          simp only [decide_eq_true_eq] at hxi
          exact hni (by
            simp only [List.contains_eq_any_beq, List.any_eq_true, beq_iff_eq,
              List.mem_map]
            exact ⟨x.id, ⟨x, hx, rfl⟩, hxi ▸ rfl⟩)
        rw [countId, this] at hcount
        simp at hcount
      rw [countId, hitems, mergePage_filter, if_pos hi]
      exact hcount
    · intro x
      rw [hitems]
      exact mergePage_mem s.items newItems x

/-- Witness for C1 at a concrete input: appending page 2 containing id "a"
(already present from page 1) and the fresh id "b" leaves exactly one entry
for "a", namely the new item. -/
theorem fetchSucceeded_page_semantics_witness :
    countId (fetchSucceeded
        { items := [⟨"a", 0⟩], loading := false, loadingMore := false
        , error := none, page := 1, hasMore := true, total := 3 }
        [⟨"a", 7⟩, ⟨"b", 2⟩] 2 3 true).items "a" = 1 ∧
    (fetchSucceeded
        { items := [⟨"a", 0⟩], loading := false, loadingMore := false
        , error := none, page := 1, hasMore := true, total := 3 }
        [⟨"a", 7⟩, ⟨"b", 2⟩] 2 3 true).items.filter (fun x => x.id = "a")
      = [⟨"a", 7⟩] :=
  ⟨((fetchSucceeded_page_semantics
      { items := [⟨"a", 0⟩], loading := false, loadingMore := false
      , error := none, page := 1, hasMore := true, total := 3 }
      [⟨"a", 7⟩, ⟨"b", 2⟩] 2 3 true).2 (by decide)).2.2.1 "a" (by decide),
   by
    rw [((fetchSucceeded_page_semantics
      { items := [⟨"a", 0⟩], loading := false, loadingMore := false
      , error := none, page := 1, hasMore := true, total := 3 }
      [⟨"a", 7⟩, ⟨"b", 2⟩] 2 3 true).2 (by decide)).1 "a" (by decide)]
    decide⟩

/-- Claim C5 counterexample: `fetchSucceeded` records the `total` and
`hasMore` values the Remote Resource Client returned verbatim, so the
invariant `items.length ≤ total ∧ hasMore = (items.length < total)` does
NOT hold for arbitrary returned values: a page of one item with a reported
total of 0 and hasMore = true violates both conjuncts. -/
theorem fetchSucceeded_invariant_counterexample :
    ¬ ((fetchSucceeded initialSlice [⟨"a", 0⟩] 1 0 true).items.length ≤
          (fetchSucceeded initialSlice [⟨"a", 0⟩] 1 0 true).total ∧
       (fetchSucceeded initialSlice [⟨"a", 0⟩] 1 0 true).hasMore =
          decide ((fetchSucceeded initialSlice [⟨"a", 0⟩] 1 0 true).items.length <
            (fetchSucceeded initialSlice [⟨"a", 0⟩] 1 0 true).total)) := by
  decide

/-- Claim C5 (amended): after `fetchSucceeded` the recorded `total` and
`hasMore` fields are exactly the values the Remote Resource Client
returned; hence `items.length ≤ total` and `hasMore = (items.length <
total)` hold immediately after the transition precisely when the returned
metadata satisfies them for the resulting items sequence, not for
arbitrary returned values. -/
theorem fetchSucceeded_invariant (s : CacheSlice) (newItems : List Item)
    (page total : Nat) (hasMore : Bool)
    (h1 : (fetchSucceeded s newItems page total hasMore).items.length ≤ total)
    (h2 : hasMore =
      decide ((fetchSucceeded s newItems page total hasMore).items.length < total)) :
    (fetchSucceeded s newItems page total hasMore).items.length ≤
        (fetchSucceeded s newItems page total hasMore).total ∧
    (fetchSucceeded s newItems page total hasMore).hasMore =
      decide ((fetchSucceeded s newItems page total hasMore).items.length <
        (fetchSucceeded s newItems page total hasMore).total) := by
  refine ⟨?_, ?_⟩
  · simpa [fetchSucceeded] using h1
  · simp only [fetchSucceeded]
    exact h2

/-- Witness for the amended C5 at a concrete consistent input: one item
with total 5 and hasMore = true. -/
theorem fetchSucceeded_invariant_witness :
    (fetchSucceeded initialSlice [⟨"a", 0⟩] 1 5 true).items.length ≤
        (fetchSucceeded initialSlice [⟨"a", 0⟩] 1 5 true).total ∧
    (fetchSucceeded initialSlice [⟨"a", 0⟩] 1 5 true).hasMore =
      decide ((fetchSucceeded initialSlice [⟨"a", 0⟩] 1 5 true).items.length <
        (fetchSucceeded initialSlice [⟨"a", 0⟩] 1 5 true).total) :=
  fetchSucceeded_invariant initialSlice [⟨"a", 0⟩] 1 5 true (by decide) (by decide)

/-- A network request issued by the Cache Controller to the Remote
Resource Client. -/
inductive NetCall where
  | list (page : Nat)
  | listGroups (campaignId : String)
  | create
  | update (id : String)
  | delete (id : String)
deriving DecidableEq, Repr

/-- The Remote Resource Client's answer to a page request. -/
inductive FetchResult where
  | success (items : List Item) (total : Nat) (hasMore : Bool)
  | failure (msg : String)
deriving DecidableEq, Repr

/-- Modelled from the spec: the Cache Controller's `fetch(options)`: if
the slice is non-empty and `forceRefresh` is false, it returns the cached
items without a network call; otherwise it issues a page-1 request and
applies `beginFetch` / `fetchSucceeded` / `fetchFailed`.  The result is
the new slice, the returned items, and the list of network calls issued. -/
def fetchOp (remote : Nat → FetchResult) (s : CacheSlice) (forceRefresh : Bool) :
    CacheSlice × List Item × List NetCall :=
  if s.items ≠ [] ∧ forceRefresh = false then (s, s.items, [])
  else
    match remote 1 with
    | FetchResult.success its t hm =>
        let s2 := fetchSucceeded (beginFetch s 1) its 1 t hm
        (s2, s2.items, [NetCall.list 1])
    | FetchResult.failure m =>
        (fetchFailed (beginFetch s 1) m, s.items, [NetCall.list 1])

/-- A sequence of `fetch` calls with `forceRefresh = false`, collecting
every network call issued along the way. -/
def fetchRepeat (remote : Nat → FetchResult) : Nat → CacheSlice → CacheSlice × List NetCall
  | 0, s => (s, [])
  | n + 1, s =>
      let r := fetchOp remote s false
      let rest := fetchRepeat remote n r.1
      (rest.1, r.2.2 ++ rest.2)

/-- Claim C2: on a non-empty slice, `fetch` with `forceRefresh = false`
returns the cached items, leaves the slice unchanged and issues no network
call; consequently every sequence of such `fetch` calls issues no network
call at all. -/
theorem fetch_cached_no_network (remote : Nat → FetchResult) (s : CacheSlice)
    (h : s.items ≠ []) :
    fetchOp remote s false = (s, s.items, []) ∧
    ∀ n : Nat, fetchRepeat remote n s = (s, []) := by
  have h1 : fetchOp remote s false = (s, s.items, []) := by
    simp [fetchOp, h]
  refine ⟨h1, ?_⟩
  intro n
  induction n with
  | zero => rfl
  | succ n ih => simp [fetchRepeat, h1, ih]

/-- Witness for C2: two successive cached fetches on a one-item slice
issue no network call, even against a client that would answer. -/
theorem fetch_cached_no_network_witness :
    fetchRepeat (fun _ => FetchResult.success [⟨"z", 9⟩] 1 false) 2
      { items := [⟨"a", 0⟩], loading := false, loadingMore := false
      , error := none, page := 1, hasMore := false, total := 1 }
      = ({ items := [⟨"a", 0⟩], loading := false, loadingMore := false
         , error := none, page := 1, hasMore := false, total := 1 }, []) :=
  (fetch_cached_no_network (fun _ => FetchResult.success [⟨"z", 9⟩] 1 false)
    { items := [⟨"a", 0⟩], loading := false, loadingMore := false
    , error := none, page := 1, hasMore := false, total := 1 }
    (by decide)).2 2

/-- Modelled from the spec: the initiation half of the Cache Controller's
`loadMore()`: a no-op when `hasMore = false` or `loadingMore = true`
(reentrancy guard), otherwise it applies `beginFetch` for page `page + 1`
and issues the page `page + 1` request.  The request stays in flight until
`loadMoreResolve` applies the response. -/
def loadMoreStart (s : CacheSlice) : CacheSlice × List NetCall :=
  if s.hasMore = false ∨ s.loadingMore = true then (s, [])
  else (beginFetch s (s.page + 1), [NetCall.list (s.page + 1)])

/-- Modelled from the spec: the resolution half of `loadMore()`, applying
the Remote Resource Client's response for page `page + 1`. -/
def loadMoreResolve (s : CacheSlice) (r : FetchResult) : CacheSlice :=
  match r with
  | FetchResult.success its t hm => fetchSucceeded s its (s.page + 1) t hm
  | FetchResult.failure m => fetchFailed s m

/-- Claim C3: `loadMore` with `hasMore = false` or `loadingMore = true` is
a no-op issuing no network request, and whenever a `loadMore` does issue a
page request on a slice whose page cursor is at least 1, the slice it
leaves behind has `loadingMore = true`, so a second `loadMore` before the
first resolves is a no-op issuing no request. -/
theorem loadMore_reentrancy_guard (s : CacheSlice) :
    (s.hasMore = false ∨ s.loadingMore = true → loadMoreStart s = (s, [])) ∧
    (1 ≤ s.page → (loadMoreStart s).2 ≠ [] →
      (loadMoreStart s).1.loadingMore = true ∧
      loadMoreStart (loadMoreStart s).1 = ((loadMoreStart s).1, [])) := by
  constructor
  · intro h
    simp [loadMoreStart, h]
  · intro hpage hcall
    have hguard : ¬ (s.hasMore = false ∨ s.loadingMore = true) := by
      intro h
      apply hcall
      simp [loadMoreStart, h]
    have hstart : loadMoreStart s = (beginFetch s (s.page + 1), [NetCall.list (s.page + 1)]) := by
      simp [loadMoreStart, hguard]
    have hpg : s.page + 1 ≠ 1 := by omega
    have hlm : (beginFetch s (s.page + 1)).loadingMore = true := by
      simp [beginFetch, hpg]
    refine ⟨by rw [hstart]; exact hlm, ?_⟩
    rw [hstart]
    simp [loadMoreStart, hlm]

/-- Witness for C3: a slice with an in-flight `loadMore` (page 1 loaded,
more available) blocks a second request until resolution, and a slice with
`loadingMore = true` is a guarded no-op. -/
theorem loadMore_reentrancy_guard_witness :
    loadMoreStart
      { items := [⟨"a", 0⟩], loading := false, loadingMore := true
      , error := none, page := 1, hasMore := true, total := 2 }
      = ({ items := [⟨"a", 0⟩], loading := false, loadingMore := true
         , error := none, page := 1, hasMore := true, total := 2 }, []) ∧
    loadMoreStart
      (loadMoreStart
        { items := [⟨"a", 0⟩], loading := false, loadingMore := false
        , error := none, page := 1, hasMore := true, total := 2 }).1
      = ((loadMoreStart
          { items := [⟨"a", 0⟩], loading := false, loadingMore := false
          , error := none, page := 1, hasMore := true, total := 2 }).1, []) :=
  ⟨(loadMore_reentrancy_guard
      { items := [⟨"a", 0⟩], loading := false, loadingMore := true
      , error := none, page := 1, hasMore := true, total := 2 }).1 (Or.inr rfl),
   ((loadMore_reentrancy_guard
      { items := [⟨"a", 0⟩], loading := false, loadingMore := false
      , error := none, page := 1, hasMore := true, total := 2 }).2
      (by decide) (by decide)).2⟩

/-- Modelled from the spec: the Cache Controller's `create(input)`: calls
the Remote Resource Client and, on success, invalidates the slice (always
discard the cache, forcing a re-fetch on the next read).  On failure the
mutation is rejected and the slice is left as it was. -/
def createOp (s : CacheSlice) (ok : Bool) : CacheSlice × List NetCall :=
  (if ok then invalidate s else s, [NetCall.create])

/-- Modelled from the spec: the Cache Controller's `update(id, input)`,
with the same remote-call-then-invalidate policy as `createOp`. -/
def updateOp (s : CacheSlice) (i : String) (ok : Bool) : CacheSlice × List NetCall :=
  (if ok then invalidate s else s, [NetCall.update i])

/-- Modelled from the spec: the Cache Controller's `delete(id)`, with the
same remote-call-then-invalidate policy as `createOp`. -/
def deleteOp (s : CacheSlice) (i : String) (ok : Bool) : CacheSlice × List NetCall :=
  (if ok then invalidate s else s, [NetCall.delete i])

/-- Claim C4: every successful create, update or delete mutation performs
exactly its remote call and leaves the slice invalidated (reset to the
empty initial slice, so the next read re-fetches); in particular no item
held before a successful update — such as the pre-update item — remains in
the slice. -/
theorem mutations_invalidate_slice (s : CacheSlice) (i : String) (x : Item)
    (_hx : x ∈ s.items) :
    createOp s true = (initialSlice, [NetCall.create]) ∧
    updateOp s i true = (initialSlice, [NetCall.update i]) ∧
    deleteOp s i true = (initialSlice, [NetCall.delete i]) ∧
    x ∉ (updateOp s i true).1.items := by
  refine ⟨rfl, rfl, rfl, ?_⟩
  intro hmem
  simp [updateOp, invalidate, initialSlice] at hmem

/-- Witness for C4: updating id "a" on a slice holding the pre-update item
`⟨"a", 0⟩` leaves the invalidated initial slice, which no longer holds it. -/
theorem mutations_invalidate_slice_witness :
    updateOp
      { items := [⟨"a", 0⟩], loading := false, loadingMore := false
      , error := none, page := 1, hasMore := false, total := 1 }
      "a" true = (initialSlice, [NetCall.update "a"]) ∧
    (⟨"a", 0⟩ : Item) ∉ (updateOp
      { items := [⟨"a", 0⟩], loading := false, loadingMore := false
      , error := none, page := 1, hasMore := false, total := 1 }
      "a" true).1.items :=
  ⟨(mutations_invalidate_slice
      { items := [⟨"a", 0⟩], loading := false, loadingMore := false
      , error := none, page := 1, hasMore := false, total := 1 }
      "a" ⟨"a", 0⟩ (by decide)).2.1,
   (mutations_invalidate_slice
      { items := [⟨"a", 0⟩], loading := false, loadingMore := false
      , error := none, page := 1, hasMore := false, total := 1 }
      "a" ⟨"a", 0⟩ (by decide)).2.2.2⟩

/-- Modelled from the spec: the state of the group scoping controller: the
Selection Context's selected campaign id, the group slice's items, and the
campaign id of the group fetch currently in flight, if any. -/
structure GroupScope where
  selectedResourceId : Option String
  groups : List Item
  pendingFetch : Option String
deriving DecidableEq, Repr

/-- Modelled from the spec: the empty initial group scope. -/
def initialGroupScope : GroupScope :=
  { selectedResourceId := none, groups := [], pendingFetch := none }

/-- Modelled from the spec: the group controller's reaction to a Selection
Context change: on a new selection it clears the previously loaded groups
and then issues the fetch for the new selection's groups; on a cleared
selection it resets the group slice to empty with no fetch. -/
def onSelectionChange (_st : GroupScope) (newSel : Option String) :
    GroupScope × List NetCall :=
  match newSel with
  | none => (initialGroupScope, [])
  | some b =>
      ({ selectedResourceId := some b, groups := [], pendingFetch := some b },
       [NetCall.listGroups b])

/-- Modelled from the spec: applying the Remote Resource Client's response
to an in-flight group fetch; a response for a campaign that is no longer
the pending one is ignored. -/
def resolveGroups (st : GroupScope) (campaignId : String) (its : List Item) :
    GroupScope :=
  if st.pendingFetch = some campaignId then
    { st with groups := its, pendingFetch := none }
  else st

/-- Claim C6: switching the selected campaign from A to B first clears the
group slice of every previously loaded group (so no item of B can appear
before the clear) and issues exactly the fetch for B's groups, which only
populates the slice when it resolves; clearing the selection resets the
group scope to the empty initial state with no fetch. -/
theorem selection_change_clears_groups (st : GroupScope) (b : String) :
    ((onSelectionChange st (some b)).1.groups = [] ∧
     (onSelectionChange st (some b)).2 = [NetCall.listGroups b]) ∧
    (∀ x : Item, x ∈ st.groups → x ∉ (onSelectionChange st (some b)).1.groups) ∧
    (∀ its : List Item,
      (resolveGroups (onSelectionChange st (some b)).1 b its).groups = its) ∧
    (onSelectionChange st none = (initialGroupScope, [])) := by
  refine ⟨⟨rfl, rfl⟩, ?_, ?_, rfl⟩
  · intro x _ hmem
    simp [onSelectionChange] at hmem
  · intro its
    simp [onSelectionChange, resolveGroups]

/-- Witness for C6: with group ⟨"g1", 0⟩ loaded for campaign "A",
switching to "B" leaves an empty group slice that no longer contains it. -/
theorem selection_change_clears_groups_witness :
    (onSelectionChange
      { selectedResourceId := some "A", groups := [⟨"g1", 0⟩], pendingFetch := none }
      (some "B")).1.groups = [] ∧
    (⟨"g1", 0⟩ : Item) ∉ (onSelectionChange
      { selectedResourceId := some "A", groups := [⟨"g1", 0⟩], pendingFetch := none }
      (some "B")).1.groups :=
  ⟨(selection_change_clears_groups
      { selectedResourceId := some "A", groups := [⟨"g1", 0⟩], pendingFetch := none }
      "B").1.1,
   (selection_change_clears_groups
      { selectedResourceId := some "A", groups := [⟨"g1", 0⟩], pendingFetch := none }
      "B").2.1 ⟨"g1", 0⟩ (by decide)⟩

/-- Splitting a character list on a separator character, the semantics of
JavaScript's `String.prototype.split` with a one-character separator
(which the sources use with `","`, `";"`, `"-"`, `"/"`): the empty input
yields one empty field. -/
def splitOnCharAux (sep : Char) : List Char → List Char → List (List Char)
  | [], acc => [acc.reverse]
  | c :: cs, acc =>
      if c = sep then acc.reverse :: splitOnCharAux sep cs []
      else splitOnCharAux sep cs (c :: acc)

/-- Split a character list on a separator character. -/
def splitOnChar (sep : Char) (l : List Char) : List (List Char) :=
  splitOnCharAux sep l []

/-- Split a string on a separator character, as JavaScript `split` does. -/
def splitStr (sep : Char) (s : String) : List String :=
  (splitOnChar sep s.data).map String.mk

/-- Strip leading and trailing whitespace, the semantics of JavaScript's
`String.prototype.trim` on the ASCII whitespace the sources meet. -/
def trimChars (l : List Char) : List Char :=
  ((l.dropWhile Char.isWhitespace).reverse.dropWhile Char.isWhitespace).reverse

/-- Parse a non-empty all-digit character list as a natural number. -/
def digitsToNat (l : List Char) : Option Nat :=
  if l ≠ [] ∧ l.all Char.isDigit then
    some (l.foldl (fun n c => n * 10 + (c.toNat - 48)) 0)
  else none

/-- Modelled from the spec: serialization of one item for the Persistence
Adapter's durable snapshot. -/
def serializeItem (x : Item) : String :=
  x.id ++ "=" ++ toString x.payload

/-- Modelled from the spec: deserialization of one item; malformed input
yields `none`. -/
def deserializeItem (s : String) : Option Item :=
  match splitStr '=' s with
  | [i, p] => (digitsToNat p.data).map (fun n => { id := i, payload := n })
  | _ => none

/-- Modelled from the spec: the Persistence Adapter's serialization of the
whitelisted slice data (page cursor, total, has-more flag and the items;
the transient loading flags and error are not part of the snapshot). -/
def serializeSlice (s : CacheSlice) : String :=
  String.intercalate ";"
    ([toString s.page, toString s.total, if s.hasMore then "1" else "0"]
      ++ s.items.map serializeItem)

/-- Modelled from the spec: the Persistence Adapter's deserialization,
inverse to `serializeSlice`; any corrupt field yields `none`. -/
def deserializeSlice (str : String) : Option CacheSlice :=
  match splitStr ';' str with
  | pg :: tot :: hm :: rest =>
      match digitsToNat pg.data, digitsToNat tot.data, hm with
      | some p, some t, "1" =>
          (rest.mapM deserializeItem).map (fun its =>
            { items := its, loading := false, loadingMore := false
            , error := none, page := p, hasMore := true, total := t })
      | some p, some t, "0" =>
          (rest.mapM deserializeItem).map (fun its =>
            { items := its, loading := false, loadingMore := false
            , error := none, page := p, hasMore := false, total := t })
      | _, _, _ => none
  | _ => none

/-- Modelled from the spec: rehydration on startup: absent persisted data
yields the empty initial slice, and a deserialization failure degrades to
the empty initial slice as well, never a fatal error. -/
def rehydrate (stored : Option String) : CacheSlice :=
  match stored with
  | none => initialSlice
  | some b => (deserializeSlice b).getD initialSlice

theorem deserializeSlice_error_none (b : String) (sl : CacheSlice)
    (h : deserializeSlice b = some sl) :
    sl.error = none ∧ sl.loading = false ∧ sl.loadingMore = false := by
  unfold deserializeSlice at h
  split at h
  · split at h
    · rcases Option.map_eq_some'.mp h with ⟨its, _, rfl⟩
      exact ⟨rfl, rfl, rfl⟩
    · rcases Option.map_eq_some'.mp h with ⟨its, _, rfl⟩
      exact ⟨rfl, rfl, rfl⟩
    · exact absurd h (by simp)
  · exact absurd h (by simp)

/-- Claim C7: rehydration of absent persisted data yields the empty
initial state; rehydration of data on which deserialization fails also
degrades to the empty initial state; and rehydration is a total function
whose result never carries an error or a stuck loading flag, so the
failure is never surfaced. -/
theorem rehydrate_never_fatal (stored : Option String) :
    rehydrate none = initialSlice ∧
    (∀ b : String, stored = some b → deserializeSlice b = none →
      rehydrate stored = initialSlice) ∧
    (rehydrate stored).error = none ∧
    (rehydrate stored).loading = false ∧
    (rehydrate stored).loadingMore = false := by
  refine ⟨rfl, ?_, ?_⟩
  · rintro b rfl hfail
    simp [rehydrate, hfail]
  · cases stored with
    | none => exact ⟨rfl, rfl, rfl⟩
    | some b =>
        cases hd : deserializeSlice b with
        | none => simp [rehydrate, hd, initialSlice]
        | some sl =>
            have := deserializeSlice_error_none b sl hd
            simpa [rehydrate, hd] using this

/-- Witness for C7: the corrupt persisted string "garbage" fails to
deserialize and rehydrates to the empty initial slice. -/
theorem rehydrate_never_fatal_witness :
    rehydrate (some "garbage") = initialSlice :=
  (rehydrate_never_fatal (some "garbage")).2.1 "garbage" rfl (by decide)

/-- Translated from the source (`i18n/request.ts`): the supported
application locales. -/
def locales : List String := ["fr", "en", "es"]

/-- Translated from the source (`i18n/request.ts`): the default locale. -/
def defaultLocale : String := "en"

/-- Translated from the source (`middleware.ts`): the mapping applied to
each Accept-Language entry, `lang.split(";")[0].trim().split("-")[0]
.toLowerCase()` — the lowercased primary subtag. -/
def primarySubtag (lang : String) : String :=
  String.mk
    (((splitOnChar '-' (trimChars ((splitOnChar ';' lang.data).headD []))).headD
      []).map Char.toLower)

/-- Translated from the source (`middleware.ts` `getPreferredLocale`,
step 2): scan the browser's Accept-Language header, mapping every entry to
its lowercased primary subtag and returning the first supported one; an
absent or empty header yields nothing. -/
def localeFromHeader (acceptLanguage : Option String) : Option String :=
  match acceptLanguage with
  | none => none
  | some al =>
      if al = "" then none
      else
        (((splitOnChar ',' al.data).map String.mk).map primarySubtag).find?
          (fun l => locales.contains l)

/-- Translated from the source (`middleware.ts` `getPreferredLocale`):
the `user-preferred-locale` cookie wins when present, non-empty and
supported; otherwise the Accept-Language header is consulted. -/
def getPreferredLocale (cookieLocale acceptLanguage : Option String) :
    Option String :=
  match cookieLocale with
  | some c =>
      if c ≠ "" ∧ c ∈ locales then some c
      else localeFromHeader acceptLanguage
  | none => localeFromHeader acceptLanguage

/-- The parts of an incoming request the middleware reads: the
`user-preferred-locale` cookie, the `accept-language` header, and the URL
pathname. -/
structure Request where
  cookieLocale : Option String
  acceptLanguage : Option String
  pathname : String

/-- The middleware's outcome: a redirect response or delegation to the
standard next-intl middleware. -/
inductive MwResult where
  | redirect (path : String)
  | next
deriving DecidableEq, Repr

/-- Translated from the source (`middleware.ts` `middleware`): when a
preferred locale exists and the URL is root, redirect to `/<locale>`;
otherwise call the standard next-intl middleware. -/
def middleware (req : Request) : MwResult :=
  match getPreferredLocale req.cookieLocale req.acceptLanguage with
  | some l =>
      if req.pathname = "/" then MwResult.redirect ("/" ++ l)
      else MwResult.next
  | none => MwResult.next

/-- Claim C8's wording of the cookie priority: the cookie counts exactly
when its value is one of the supported locales. -/
def cookiePreference (cookieLocale : Option String) : Option String :=
  match cookieLocale with
  | some c => if c ∈ locales then some c else none
  | none => none

/-- Claim C8's wording of the header fallback: the first language in the
Accept-Language header whose lowercased primary subtag is supported,
yielding that subtag. -/
def headerPreference (acceptLanguage : Option String) : Option String :=
  match acceptLanguage with
  | none => none
  | some al =>
      (((splitOnChar ',' al.data).map String.mk).find?
        (fun lang => locales.contains (primarySubtag lang))).map primarySubtag

/-- Claim C8's locale choice with strict priority: the cookie first, the
Accept-Language header otherwise. -/
def preferredLocaleSpec (cookieLocale acceptLanguage : Option String) :
    Option String :=
  match cookiePreference cookieLocale with
  | some c => some c
  | none => headerPreference acceptLanguage

theorem localeFromHeader_eq_spec (acceptLanguage : Option String) :
    localeFromHeader acceptLanguage = headerPreference acceptLanguage := by
  cases acceptLanguage with
  | none => rfl
  | some al =>
      by_cases hal : al = ""
      · subst hal
        simp only [localeFromHeader, if_pos rfl]
        decide
      · simp only [localeFromHeader, headerPreference, if_neg hal]
        rw [List.find?_map]
        rfl

theorem getPreferredLocale_eq_spec (cookieLocale acceptLanguage : Option String) :
    getPreferredLocale cookieLocale acceptLanguage
      = preferredLocaleSpec cookieLocale acceptLanguage := by
  have hheader := localeFromHeader_eq_spec acceptLanguage
  cases cookieLocale with
  | none =>
      simpa [getPreferredLocale, preferredLocaleSpec, cookiePreference]
        using hheader
  | some c =>
      by_cases hc : c ∈ locales
      · have hne : c ≠ "" := by
          simp only [locales, List.mem_cons, List.not_mem_nil, or_false] at hc
          rcases hc with rfl | rfl | rfl <;> decide
        simp [getPreferredLocale, preferredLocaleSpec, cookiePreference, hc, hne]
      · simp [getPreferredLocale, preferredLocaleSpec, cookiePreference, hc,
          hheader]

theorem slash_append_inj (a b : String) (h : "/" ++ a = "/" ++ b) : a = b := by
  have hd : ("/" ++ a).data = ("/" ++ b).data := by rw [h]
  rw [String.data_append, String.data_append] at hd
  have hslash : ("/" : String).data = ['/'] := rfl
  rw [hslash] at hd
  have hab : a.data = b.data := by injection hd
  exact String.ext hab

theorem middleware_of_some (req : Request) (l : String)
    (h : getPreferredLocale req.cookieLocale req.acceptLanguage = some l) :
    middleware req =
      if req.pathname = "/" then MwResult.redirect ("/" ++ l)
      else MwResult.next := by
  unfold middleware
  rw [h]

theorem middleware_of_none (req : Request)
    (h : getPreferredLocale req.cookieLocale req.acceptLanguage = none) :
    middleware req = MwResult.next := by
  unfold middleware
  rw [h]

/-- Claim C8: the middleware's preferred locale equals the claim's
strict-priority choice (cookie value when it is one of fr, en, es,
otherwise the first Accept-Language entry whose lowercased primary subtag
is supported); a redirect to `/<locale>` is produced exactly for the root
pathname with such a locale, and otherwise the request is delegated to the
standard next-intl middleware. -/
theorem middleware_locale_selection (req : Request) :
    getPreferredLocale req.cookieLocale req.acceptLanguage
      = preferredLocaleSpec req.cookieLocale req.acceptLanguage ∧
    (∀ l : String, middleware req = MwResult.redirect ("/" ++ l) ↔
      (req.pathname = "/" ∧
        preferredLocaleSpec req.cookieLocale req.acceptLanguage = some l)) ∧
    ((req.pathname ≠ "/" ∨
        preferredLocaleSpec req.cookieLocale req.acceptLanguage = none) →
      middleware req = MwResult.next) := by
  have hspec := getPreferredLocale_eq_spec req.cookieLocale req.acceptLanguage
  refine ⟨hspec, ?_, ?_⟩
  · intro l
    constructor
    · intro hmw
      cases hpref : preferredLocaleSpec req.cookieLocale req.acceptLanguage with
      | none =>
          rw [middleware_of_none req (hspec.trans hpref)] at hmw
          exact absurd hmw (by simp)
      | some l2 =>
          rw [middleware_of_some req l2 (hspec.trans hpref)] at hmw
          by_cases hpath : req.pathname = "/"
          · rw [if_pos hpath] at hmw
            have hl : "/" ++ l2 = "/" ++ l := by injection hmw
            exact ⟨hpath, congrArg some (slash_append_inj l2 l hl)⟩
          · rw [if_neg hpath] at hmw
            exact absurd hmw (by simp)
    · rintro ⟨hpath, hpref⟩
      rw [middleware_of_some req l (hspec.trans hpref), if_pos hpath]
  · intro hcase
    cases hpref : preferredLocaleSpec req.cookieLocale req.acceptLanguage with
    | none => exact middleware_of_none req (hspec.trans hpref)
    | some l2 =>
        rcases hcase with hpath | hnone
        · rw [middleware_of_some req l2 (hspec.trans hpref), if_neg hpath]
        · rw [hpref] at hnone; exact absurd hnone (by simp)

/-- Witness for C8: an unsupported cookie "de" falls through to the
Accept-Language header "es-ES,fr;q=0.9", whose first entry's lowercased
primary subtag "es" is supported, so the root request redirects to /es. -/
theorem middleware_locale_selection_witness :
    middleware
      { cookieLocale := some "de", acceptLanguage := some "es-ES,fr;q=0.9"
      , pathname := "/" } = MwResult.redirect ("/" ++ "es") :=
  ((middleware_locale_selection
    { cookieLocale := some "de", acceptLanguage := some "es-ES,fr;q=0.9"
    , pathname := "/" }).2.1 "es").mpr ⟨rfl, by decide⟩

/-- The outcome of the i18n request configuration: either the request
fails as not-found, or a configuration holding the validated locale and
the locale whose message file `messages/<locale>.json` was loaded. -/
inductive ConfigResult where
  | notFoundResult
  | ok (locale : String) (messagesLocale : String)
deriving DecidableEq, Repr

/-- Translated from the source (`i18n/request.ts` `getRequestConfig`): a
missing, empty or unsupported request locale invokes `notFound()`;
otherwise the configuration carries the locale, and the messages are
loaded for exactly that locale. -/
def requestConfig (requestLocale : Option String) : ConfigResult :=
  match requestLocale with
  | none => ConfigResult.notFoundResult
  | some l =>
      if l = "" ∨ l ∉ locales then ConfigResult.notFoundResult
      else ConfigResult.ok l l

/-- Claim C9: an absent or unsupported request locale makes the i18n
request configuration fail as not-found — it never yields a configuration,
in particular never one falling back to the default locale "en" — and any
configuration produced holds a validated supported locale whose messages
are the ones loaded. -/
theorem requestConfig_validates (rl : Option String) :
    (rl = none → requestConfig rl = ConfigResult.notFoundResult) ∧
    (∀ l : String, rl = some l → l ∉ locales →
      requestConfig rl = ConfigResult.notFoundResult) ∧
    (∀ l : String, rl = some l → l ∉ locales →
      ∀ a b : String, requestConfig rl ≠ ConfigResult.ok a b) ∧
    (∀ l m : String, requestConfig rl = ConfigResult.ok l m →
      rl = some l ∧ l ∈ locales ∧ m = l) := by
  refine ⟨?_, ?_, ?_, ?_⟩
  · rintro rfl; rfl
  · rintro l rfl hl
    simp [requestConfig, hl]
  · rintro l rfl hl a b
    simp [requestConfig, hl]
  · intro l m hok
    cases rl with
    | none => exact absurd hok (by simp [requestConfig])
    | some x =>
        have hok2 : (if x = "" ∨ x ∉ locales then ConfigResult.notFoundResult
            else ConfigResult.ok x x) = ConfigResult.ok l m := hok
        by_cases hx : x = "" ∨ x ∉ locales
        · rw [if_pos hx] at hok2
          exact absurd hok2 (by simp)
        · rw [if_neg hx] at hok2
          push_neg at hx
          injection hok2 with h1 h2
          subst h1
          exact ⟨rfl, hx.2, h2.symm⟩

/-- Witness for C9: the unsupported locale "de" fails as not-found and
yields no configuration. -/
theorem requestConfig_validates_witness :
    requestConfig (some "de") = ConfigResult.notFoundResult ∧
    requestConfig (some "de") ≠ ConfigResult.ok "en" "en" :=
  ⟨(requestConfig_validates (some "de")).2.1 "de" rfl (by decide),
   (requestConfig_validates (some "de")).2.2.1 "de" rfl (by decide) "en" "en"⟩

/-- The observable behaviour of the catch-all not-found page: whether the
error toast is shown, and the pathname passed to `router.push`. -/
structure NotFoundEffect where
  toastError : Bool
  redirectTo : String
deriving DecidableEq, Repr

/-- Translated from the source
(`app/[locale]/[...notFound]/page.tsx`): the page computes the locale as
`pathname.split("/")[1] || "fr"`, shows the translated error toast and
pushes `/<locale>`. -/
def notFoundPage (pathname : String) : NotFoundEffect :=
  { toastError := true
  , redirectTo :=
      "/" ++ (if ((splitOnChar '/' pathname.data).map String.mk).getD 1 "" = ""
              then "fr"
              else ((splitOnChar '/' pathname.data).map String.mk).getD 1 "") }

/-- Claim C10: for every pathname the catch-all not-found page shows the
error toast and redirects to "/" followed by the pathname's first segment
(the entry at index 1 of the "/"-split); when that segment is empty the
fallback target is "/fr", whose locale differs from the configured default
locale "en". -/
theorem notFoundPage_redirects (p seg : String)
    (h : ((splitOnChar '/' p.data).map String.mk).getD 1 "" = seg) :
    (notFoundPage p).toastError = true ∧
    (seg ≠ "" → (notFoundPage p).redirectTo = "/" ++ seg) ∧
    (seg = "" →
      (notFoundPage p).redirectTo = "/fr" ∧ "fr" ≠ defaultLocale) := by
  refine ⟨rfl, ?_, ?_⟩
  · intro hne
    simp only [notFoundPage, h, if_neg hne]
  · intro he
    refine ⟨?_, by decide⟩
    simp only [notFoundPage, h, if_pos he]
    rfl

/-- Witness for C10: the bare root pathname has an empty first segment,
so the page falls back to "/fr", which differs from the default locale. -/
theorem notFoundPage_redirects_witness :
    (notFoundPage "/").toastError = true ∧
    ((notFoundPage "/").redirectTo = "/fr" ∧ "fr" ≠ defaultLocale) :=
  ⟨(notFoundPage_redirects "/" "" (by decide)).1,
   (notFoundPage_redirects "/" "" (by decide)).2.2 rfl⟩

end Chariot
